import Mathlib

/-!
Shallow embedding of the telemetry ingestion core of `gui_server.py`
(classes `SensorData` and `UDPServer`).

Modelling conventions:
  * Python floats are modelled as exact rationals extended with the three
    non-finite values `inf`, `-inf`, `nan` (type `PyNum`).  Arithmetic on the
    finite part is exact rational arithmetic; the spec's statistics claims are
    stated "within floating-point tolerance", which this realises exactly.
  * Python strings are handled at the character-list level so that every
    operation reduces in the kernel; `str.strip`, `str.split(',')` and
    `str.replace('Z', '+00:00')` are translated directly.
  * Library behaviour of CPython that the source calls (`float(str)`,
    `datetime.fromisoformat`, `round(x, 2)`, `min`, `max`, `collections.deque`
    with `maxlen`) is translated on the subset of inputs the protocol uses;
    each such definition documents the subset.
  * Callback invocation is made observable by returning the list of messages
    passed to the error callback (`on_error`) and the list of
    `(record, stats)` events passed to the data callback (`on_data_received`);
    whether a callback slot is actually registered is environment choice and
    does not change which invocations happen.
-/

attribute [local semireducible] Rat.add Rat.mul Rat.sub Rat.inv Rat.ofScientific

/-- Model of a CPython `float` value: an exact rational, `inf`, `-inf` or
`nan`.  Finite values are kept exact instead of IEEE-754 rounded. -/
inductive PyNum where
  | fin (q : ℚ)
  | inf
  | ninf
  | nan
deriving DecidableEq, Repr

/-- CPython `<` on floats: `nan` is incomparable with everything (always
`False`), `-inf` is below every number, `inf` above every number. -/
def pylt : PyNum → PyNum → Bool
  | .fin p, .fin q => decide (p < q)
  | .fin _, .inf => true
  | .ninf, .fin _ => true
  | .ninf, .inf => true
  | _, _ => false

/-- CPython `min(a, b)`: returns `b` if `b < a`, else `a` (the first argument
wins ties and incomparable cases, as in the builtin). -/
def pymin (a b : PyNum) : PyNum := if pylt b a then b else a

/-- CPython `max(a, b)`: returns `b` if `b > a`, else `a`. -/
def pymax (a b : PyNum) : PyNum := if pylt a b then b else a

/-- CPython `+` on floats; `inf + (-inf)` and anything with `nan` is `nan`. -/
def pyadd : PyNum → PyNum → PyNum
  | .fin p, .fin q => .fin (p + q)
  | .nan, _ => .nan
  | _, .nan => .nan
  | .inf, .ninf => .nan
  | .ninf, .inf => .nan
  | .inf, _ => .inf
  | _, .inf => .inf
  | .ninf, _ => .ninf
  | _, .ninf => .ninf

/-- CPython `/` on floats, on the finite subset used by `get_stats` (the
divisor there is the reading count, which is at least 1).  Non-finite cases
and division by zero are collapsed to `nan`; no theorem depends on them. -/
def pydiv : PyNum → PyNum → PyNum
  | .fin p, .fin q => if q = 0 then .nan else .fin (p / q)
  | _, _ => .nan

/-- Round a rational to the nearest integer, ties to even — the rounding mode
of CPython `round`. -/
def roundHalfEvenQ (x : ℚ) : ℤ :=
  let n := ⌊x⌋
  let r := x - (n : ℚ)
  if r < 1/2 then n
  else if 1/2 < r then n + 1
  else if n % 2 = 0 then n else n + 1

/-- CPython `round(x, 2)` on the finite part, exact on rationals (the binary
double introduces no further error within the spec's stated tolerance). -/
def round2q (x : ℚ) : ℚ := ((roundHalfEvenQ (x * 100) : ℚ)) / 100

/-- CPython `round(x, 2)` lifted to `PyNum`; non-finite inputs are returned
unchanged (no claim evaluates `round` off the finite part). -/
def pyRound2 : PyNum → PyNum
  | .fin q => .fin (round2q q)
  | x => x

/-- ASCII whitespace recognised by CPython `str.strip()` (the protocol never
carries the extra Unicode whitespace `strip` would also remove). -/
def isPySpace (c : Char) : Bool :=
  c = ' ' || c = '\t' || c = '\n' || c = '\r' || c = '\x0b' || c = '\x0c'

/-- CPython `str.strip()`: drop whitespace from both ends. -/
def pyStrip (cs : List Char) : List Char :=
  ((cs.dropWhile isPySpace).reverse.dropWhile isPySpace).reverse

/-- CPython `str.split(',')`: split at every comma, keeping empty fields; the
empty string yields `[""]`. -/
def pySplitComma : List Char → List (List Char)
  | [] => [[]]
  | ',' :: rest => [] :: pySplitComma rest
  | c :: rest =>
      match pySplitComma rest with
      | [] => [[c]]
      | g :: gs => (c :: g) :: gs

/-- CPython `str.replace('Z', '+00:00')` as applied to the timestamp field. -/
def pyReplaceZ : List Char → List Char
  | [] => []
  | 'Z' :: rest => '+' :: '0' :: '0' :: ':' :: '0' :: '0' :: pyReplaceZ rest
  | c :: rest => c :: pyReplaceZ rest

/-- Numeric value of a digit character. -/
def digitVal (c : Char) : ℕ := c.toNat - 48

/-- Value of a digit string, most significant first. -/
def digitsVal (ds : List Char) : ℕ :=
  ds.foldl (fun a c => 10 * a + digitVal c) 0

/-- Multiply a rational by `10 ^ e` for an integer `e`. -/
def mulPow10 (q : ℚ) (e : ℤ) : ℚ :=
  if 0 ≤ e then q * 10 ^ e.toNat else q / 10 ^ (-e).toNat

/-- Exponent suffix of a CPython float literal (input already lowercased):
empty, or `e` followed by an optional sign and at least one digit. -/
def parseExpTail (cs : List Char) : Option ℤ :=
  match cs with
  | [] => some 0
  | 'e' :: rest =>
      match rest with
      | '+' :: r =>
          if r.length ≠ 0 && r.all Char.isDigit then some ((digitsVal r : ℤ)) else none
      | '-' :: r =>
          if r.length ≠ 0 && r.all Char.isDigit then some (-(digitsVal r : ℤ)) else none
      | r =>
          if r.length ≠ 0 && r.all Char.isDigit then some ((digitsVal r : ℤ)) else none
  | _ => none

/-- Unsigned decimal part of a CPython float literal:
`digits [. digits] [exp]` or `. digits [exp]`, with at least one digit.
Digit-group underscores, accepted by CPython since 3.6, are not modelled;
no protocol value uses them. -/
def parseDecCore (cs : List Char) : Option ℚ :=
  let ip := cs.takeWhile Char.isDigit
  let r1 := cs.dropWhile Char.isDigit
  match r1 with
  | '.' :: r2 =>
      let fp := r2.takeWhile Char.isDigit
      let r3 := r2.dropWhile Char.isDigit
      if ip.length = 0 && fp.length = 0 then none
      else
        match parseExpTail r3 with
        | none => none
        | some e =>
            some (mulPow10 ((digitsVal ip : ℚ) + (digitsVal fp : ℚ) / 10 ^ fp.length) e)
  | _ =>
      if ip.length = 0 then none
      else
        match parseExpTail r1 with
        | none => none
        | some e => some (mulPow10 (digitsVal ip : ℚ) e)

/-- Signless body of CPython `float(str)` (input lowercased): the special
tokens `inf`, `infinity`, `nan`, or a decimal literal. -/
def pyFloatBody (cs : List Char) (neg : Bool) : Option PyNum :=
  if cs = ['i', 'n', 'f'] || cs = ['i', 'n', 'f', 'i', 'n', 'i', 't', 'y'] then
    some (if neg then .ninf else .inf)
  else if cs = ['n', 'a', 'n'] then some .nan
  else
    match parseDecCore cs with
    | none => none
    | some q => some (.fin (if neg then -q else q))

/-- CPython `float(str)`: strip whitespace, case-fold, optional sign, then a
decimal literal or `inf`/`infinity`/`nan`.  Returns `none` exactly when
CPython raises `ValueError`. -/
def pyFloatOfChars (cs0 : List Char) : Option PyNum :=
  match (pyStrip cs0).map Char.toLower with
  | '+' :: rest => pyFloatBody rest false
  | '-' :: rest => pyFloatBody rest true
  | rest => pyFloatBody rest false

/-- Read exactly two digit characters as a number. -/
def parseNat2 : List Char → Option (ℕ × List Char)
  | a :: b :: rest =>
      if a.isDigit && b.isDigit then some (10 * digitVal a + digitVal b, rest) else none
  | _ => none

/-- Read exactly four digit characters as a number. -/
def parseNat4 : List Char → Option (ℕ × List Char)
  | a :: b :: c :: d :: rest =>
      if a.isDigit && b.isDigit && c.isDigit && d.isDigit then
        some (1000 * digitVal a + 100 * digitVal b + 10 * digitVal c + digitVal d, rest)
      else none
  | _ => none

/-- Gregorian leap-year rule, as used by CPython `datetime`. -/
def isLeap (y : ℕ) : Bool := (y % 4 = 0 && y % 100 ≠ 0) || y % 400 = 0

/-- Days in a month, as used by CPython `datetime`. -/
def daysInMonth (y mo : ℕ) : ℕ :=
  if mo = 2 then (if isLeap y then 29 else 28)
  else if mo = 4 || mo = 6 || mo = 9 || mo = 11 then 30
  else 31

/-- The `YYYY-MM-DD` prefix of an ISO timestamp. -/
def parseDatePart (cs : List Char) : Option (ℕ × ℕ × ℕ × List Char) := do
  let (y, r1) ← parseNat4 cs
  match r1 with
  | '-' :: r2 =>
      let (mo, r3) ← parseNat2 r2
      match r3 with
      | '-' :: r4 =>
          let (d, r5) ← parseNat2 r4
          pure (y, mo, d, r5)
      | _ => none
  | _ => none

/-- The `HH:MM[:SS[.f+]]` time-of-day part of an ISO timestamp. -/
def parseTimePart (cs : List Char) : Option (ℕ × ℕ × ℕ × List Char) := do
  let (h, r1) ← parseNat2 cs
  match r1 with
  | ':' :: r2 =>
      let (mi, r3) ← parseNat2 r2
      match r3 with
      | ':' :: r4 =>
          let (s, r5) ← parseNat2 r4
          match r5 with
          | '.' :: r6 =>
              if (r6.takeWhile Char.isDigit).length = 0 then none
              else pure (h, mi, s, r6.dropWhile Char.isDigit)
          | _ => pure (h, mi, s, r5)
      | _ => pure (h, mi, 0, r3)
  | _ => none

/-- An optional trailing `±HH:MM` UTC-offset. -/
def offsetOk : List Char → Bool
  | [] => true
  | c :: rest =>
      if c = '+' || c = '-' then
        match parseNat2 rest with
        | some (h, ':' :: r2) =>
            match parseNat2 r2 with
            | some (mi, []) => decide (h ≤ 23) && decide (mi ≤ 59)
            | _ => false
        | _ => false
      else false

/-- Whether CPython `datetime.fromisoformat` accepts the string, modelled on
the ISO-8601 subset the protocol uses: `YYYY-MM-DD` optionally followed by a
`T` or space separator, `HH:MM[:SS[.f+]]`, and an optional `±HH:MM` offset,
with calendar-valid date and time fields.  (The source replaces a literal `Z`
with `+00:00` before calling it.) -/
def fromisoformatOk (cs : List Char) : Bool :=
  match parseDatePart cs with
  | none => false
  | some (y, mo, d, rest) =>
      (decide (1 ≤ y) && decide (1 ≤ mo) && decide (mo ≤ 12) &&
       decide (1 ≤ d) && decide (d ≤ daysInMonth y mo)) &&
      match rest with
      | [] => true
      | sep :: rest2 =>
          (sep = 'T' || sep = ' ') &&
          match parseTimePart rest2 with
          | none => false
          | some (h, mi, s, rest3) =>
              decide (h ≤ 23) && decide (mi ≤ 59) && decide (s ≤ 59) && offsetOk rest3

/-- Translation of class `SensorData` (gui_server.py:37-66).  The derived
`datetime_obj` is not stored; its construction is the timestamp validity
check performed in `parse_csv_message`. -/
structure SensorData where
  sensor_id : String
  timestamp : String
  value : PyNum
  unit : String
deriving DecidableEq, Repr

/-- Error message emitted when `SensorData` construction raises inside
`parse_csv_message` (the `except` branch at gui_server.py:162-166); the
CPython exception text names the offending timestamp. -/
def parseErrMsg (ts : String) : String :=
  "Erro ao fazer parse: Invalid isoformat string: " ++ ts

/-- Translation of `UDPServer.parse_csv_message` (gui_server.py:138-166).
Returns the parse result together with the list of messages passed to the
error callback during the call.  Wrong field count and a non-numeric VALUE
return `None` before any exception can be raised, so they emit no message;
an invalid timestamp raises inside the `SensorData` constructor and is
reported through `on_error` by the `except` branch. -/
def parse_csv_message (message : String) : Option SensorData × List String :=
  match pySplitComma (pyStrip message.toList) with
  | [sid, ts, v, u] =>
      match pyFloatOfChars v with
      | none => (none, [])
      | some x =>
          if fromisoformatOk (pyReplaceZ ts) then
            (some ⟨String.mk sid, String.mk ts, x, String.mk u⟩, [])
          else (none, [parseErrMsg (String.mk ts)])
  | _ => (none, [])

/-- Default alert threshold `DEFAULT_VIBRATION_THRESHOLD` (gui_server.py:34);
a module constant, read at every update. -/
def DEFAULT_VIBRATION_THRESHOLD : ℚ := 5000

/-- Mutable state of `UDPServer` relevant to ingestion (gui_server.py:82-100):
source binding, current record, bounded history, and the running statistics.
The history capacity `max_history` is fixed at construction. -/
structure ServerState where
  sensor_id : Option String
  client_address : Option (String × ℕ)
  current_data : Option SensorData
  history : List SensorData
  max_history : ℕ
  total_readings : ℕ
  min_value : PyNum
  max_value : PyNum
  sum_values : PyNum
  high_vibration_events : ℕ
deriving DecidableEq, Repr

/-- State of a freshly constructed `UDPServer` (gui_server.py:87-100):
empty history, `min` at `+inf`, `max` at `0`, all counters zero. -/
def initServer (max_history : ℕ) : ServerState :=
  { sensor_id := none
    client_address := none
    current_data := none
    history := []
    max_history := max_history
    total_readings := 0
    min_value := .inf
    max_value := .fin 0
    sum_values := .fin 0
    high_vibration_events := 0 }

/-- `collections.deque(maxlen\x3dcap).append`: append on the right, evicting
from the left when the deque is at capacity. -/
def pushRing (cap : ℕ) (l : List SensorData) (d : SensorData) : List SensorData :=
  let l2 := l ++ [d]
  l2.drop (l2.length - cap)

/-- Translation of `UDPServer.update_stats` (gui_server.py:168-178). -/
def update_stats (st : ServerState) (data : SensorData) : ServerState :=
  { st with
    total_readings := st.total_readings + 1
    history := pushRing st.max_history st.history data
    sum_values := pyadd st.sum_values data.value
    min_value := pymin st.min_value data.value
    max_value := pymax st.max_value data.value
    high_vibration_events :=
      if pylt (.fin DEFAULT_VIBRATION_THRESHOLD) data.value then
        st.high_vibration_events + 1
      else st.high_vibration_events }

/-- The dictionary returned by `UDPServer.get_stats` (gui_server.py:187-198). -/
structure Stats where
  total_readings : ℕ
  min_value : PyNum
  max_value : PyNum
  avg_value : PyNum
  high_vibration_events : ℕ
  last_timestamp : Option String
deriving DecidableEq, Repr

/-- Translation of `UDPServer.get_stats` (gui_server.py:180-198); the empty
dictionary returned when no reading has arrived is modelled as `none`. -/
def get_stats (st : ServerState) : Option Stats :=
  if st.total_readings = 0 then none
  else
    some
      { total_readings := st.total_readings
        min_value := st.min_value
        max_value := st.max_value
        avg_value := pyRound2 (pydiv st.sum_values (.fin (st.total_readings : ℚ)))
        high_vibration_events := st.high_vibration_events
        last_timestamp := st.current_data.map SensorData.timestamp }

/-- One iteration of `UDPServer._receive_loop` for a datagram that decoded to
`message` from sender `addr` (gui_server.py:213-232).  Returns the new state,
the messages passed to the error callback, and the `(record, stats)` events
passed to the data callback. -/
def receive_step (st : ServerState) (addr : String × ℕ) (message : String) :
    ServerState × List String × List (SensorData × Option Stats) :=
  let pr := parse_csv_message message
  match pr.1 with
  | none => (st, pr.2, [])
  | some d =>
      let st1 :=
        if st.sensor_id = none then
          { st with sensor_id := some d.sensor_id, client_address := some addr }
        else st
      let st2 := { st1 with current_data := some d }
      let st3 := update_stats st2 d
      (st3, pr.2, [(d, get_stats st3)])

/-- Fold a list of accepted records through `update_stats`. -/
def apply_updates (st : ServerState) (rs : List SensorData) : ServerState :=
  rs.foldl update_stats st

/-- Decimal digits of the fractional part of `q` (for `0 ≤ q < 1`), at most
`fuel` of them, stopping at zero. -/
def fracDigits : ℚ → ℕ → List Char
  | _, 0 => []
  | q, n + 1 =>
      if q = 0 then []
      else
        Char.ofNat (48 + (⌊q * 10⌋).toNat % 10) :: fracDigits (q * 10 - (⌊q * 10⌋ : ℚ)) n

/-- CPython `str(x)` for a float, modelled for values whose decimal expansion
terminates within 17 digits — every value that arises from the protocol's
decimal literals.  (CPython prints the shortest decimal that round-trips; for
these values that is the exact expansion, with `.0` for integral values.) -/
def pyFloatRepr : PyNum → String
  | .inf => "inf"
  | .ninf => "-inf"
  | .nan => "nan"
  | .fin q =>
      let sign := if q < 0 then "-" else ""
      let a := |q|
      let ds := fracDigits (a - (⌊a⌋ : ℚ)) 17
      sign ++ (⌊a⌋).toNat.repr ++ "." ++ String.mk (if ds = [] then ['0'] else ds)

/-- The CSV row written for one record by `UDPServer.export_to_csv`
(gui_server.py:287), without the trailing newline. -/
def csvLine (d : SensorData) : String :=
  d.sensor_id ++ "," ++ d.timestamp ++ "," ++ pyFloatRepr d.value ++ "," ++ d.unit

/-- The lines of the file written by `UDPServer.export_to_csv`
(gui_server.py:280-287): the fixed header followed by one row per history
record in ring order. -/
def export_csv_lines (st : ServerState) : List String :=
  "sensor_id,timestamp,value,unit" :: st.history.map csvLine

/-- Translation of the control flow of `UDPServer.export_to_csv`
(gui_server.py:270-296).  `io_ok` models whether the file write raises an
`OSError`; on failure the function reports through the error callback and
returns `False`, and no exception escapes. -/
def export_to_csv (_st : ServerState) (io_ok : Bool) : Bool × List String :=
  if io_ok then (true, []) else (false, ["Erro ao exportar CSV: I/O error"])

/-- Helper for reasoning about `pyStrip`: remove the trailing characters
satisfying `p` (so that `pyStrip cs = rstripP isPySpace (cs.dropWhile
isPySpace)` definitionally). -/
def rstripP (p : Char → Bool) (l : List Char) : List Char :=
  (l.reverse.dropWhile p).reverse

theorem apply_updates_nil (st : ServerState) : apply_updates st [] = st := rfl

theorem apply_updates_cons (st : ServerState) (r : SensorData) (rs : List SensorData) :
    apply_updates st (r :: rs) = apply_updates (update_stats st r) rs := rfl

theorem update_stats_max_history (st : ServerState) (d : SensorData) :
    (update_stats st d).max_history = st.max_history := rfl

theorem pushRing_length_le (cap : ℕ) (l : List SensorData) (d : SensorData) :
    (pushRing cap l d).length ≤ cap ∨ (pushRing cap l d).length = l.length + 1 := by
  simp only [pushRing, List.length_drop, List.length_append, List.length_cons,
    List.length_nil]
  omega

theorem foldl_pushRing (cap : ℕ) (rs : List SensorData) :
    ∀ (l : List SensorData), l.length ≤ cap →
      rs.foldl (pushRing cap) l = (l ++ rs).drop ((l ++ rs).length - cap) := by
  induction rs with
  | nil =>
      intro l h
      simp [Nat.sub_eq_zero_of_le h]
  | cons r rs ih =>
      intro l h
      have hlen : (pushRing cap l r).length ≤ cap := by
        simp only [pushRing, List.length_drop, List.length_append, List.length_cons,
          List.length_nil]
        omega
      rw [List.foldl_cons, ih _ hlen]
      have hle : (l ++ [r]).length - cap ≤ (l ++ [r]).length := Nat.sub_le _ _
      have hexp : pushRing cap l r ++ rs =
          ((l ++ [r]) ++ rs).drop ((l ++ [r]).length - cap) := by
        rw [pushRing, List.drop_append_of_le_length hle]
      rw [hexp, List.drop_drop]
      have harr : l ++ r :: rs = (l ++ [r]) ++ rs := by simp
      rw [harr]
      congr 1
      simp only [List.length_drop, List.length_append, List.length_cons, List.length_nil]
      omega

theorem apply_updates_history (st : ServerState) (rs : List SensorData) :
    (apply_updates st rs).history = rs.foldl (pushRing st.max_history) st.history := by
  induction rs generalizing st with
  | nil => rfl
  | cons r rs ih =>
      rw [apply_updates_cons, ih, List.foldl_cons]
      rfl

theorem apply_updates_total (st : ServerState) (rs : List SensorData) :
    (apply_updates st rs).total_readings = st.total_readings + rs.length := by
  induction rs generalizing st with
  | nil => simp [apply_updates]
  | cons r rs ih =>
      rw [apply_updates_cons, ih]
      simp [update_stats]
      omega

theorem apply_updates_min (st : ServerState) (rs : List SensorData) :
    (apply_updates st rs).min_value =
      rs.foldl (fun m r => pymin m r.value) st.min_value := by
  induction rs generalizing st with
  | nil => rfl
  | cons r rs ih =>
      rw [apply_updates_cons, ih, List.foldl_cons]
      rfl

theorem apply_updates_max (st : ServerState) (rs : List SensorData) :
    (apply_updates st rs).max_value =
      rs.foldl (fun m r => pymax m r.value) st.max_value := by
  induction rs generalizing st with
  | nil => rfl
  | cons r rs ih =>
      rw [apply_updates_cons, ih, List.foldl_cons]
      rfl

theorem apply_updates_sum (st : ServerState) (rs : List SensorData) :
    (apply_updates st rs).sum_values =
      rs.foldl (fun s r => pyadd s r.value) st.sum_values := by
  induction rs generalizing st with
  | nil => rfl
  | cons r rs ih =>
      rw [apply_updates_cons, ih, List.foldl_cons]
      rfl

theorem apply_updates_crossings (st : ServerState) (rs : List SensorData) :
    (apply_updates st rs).high_vibration_events =
      st.high_vibration_events +
        rs.countP (fun r => pylt (.fin DEFAULT_VIBRATION_THRESHOLD) r.value) := by
  induction rs generalizing st with
  | nil => simp [apply_updates]
  | cons r rs ih =>
      rw [apply_updates_cons, ih, List.countP_cons]
      by_cases h : pylt (.fin DEFAULT_VIBRATION_THRESHOLD) r.value
      · simp [update_stats, h]
        omega
      · simp [update_stats, h]

theorem pymin_fin (a b : ℚ) : pymin (.fin a) (.fin b) = .fin (min a b) := by
  simp only [pymin, pylt]
  by_cases h : b < a
  · simp [h, min_eq_right (le_of_lt h)]
  · simp [h, min_eq_left (le_of_not_lt h)]

theorem pymax_fin (a b : ℚ) : pymax (.fin a) (.fin b) = .fin (max a b) := by
  simp only [pymax, pylt]
  by_cases h : a < b
  · simp [h, max_eq_right (le_of_lt h)]
  · simp [h, max_eq_left (le_of_not_lt h)]

theorem pyadd_fin (a b : ℚ) : pyadd (.fin a) (.fin b) = .fin (a + b) := rfl

theorem pymin_inf_fin (b : ℚ) : pymin .inf (.fin b) = .fin b := rfl

theorem foldl_pymin_map (rs : List SensorData) (qs : List ℚ)
    (h : rs.map SensorData.value = qs.map PyNum.fin) :
    ∀ a : ℚ, rs.foldl (fun m r => pymin m r.value) (.fin a) = .fin (qs.foldl min a) := by
  induction rs generalizing qs with
  | nil =>
      cases qs with
      | nil => intro a; rfl
      | cons q qs => simp at h
  | cons r rs ih =>
      cases qs with
      | nil => simp at h
      | cons q qs =>
          simp only [List.map_cons, List.cons.injEq] at h
          intro a
          rw [List.foldl_cons, h.1, pymin_fin, List.foldl_cons]
          exact ih qs h.2 (min a q)

theorem foldl_pymax_map (rs : List SensorData) (qs : List ℚ)
    (h : rs.map SensorData.value = qs.map PyNum.fin) :
    ∀ a : ℚ, rs.foldl (fun m r => pymax m r.value) (.fin a) = .fin (qs.foldl max a) := by
  induction rs generalizing qs with
  | nil =>
      cases qs with
      | nil => intro a; rfl
      | cons q qs => simp at h
  | cons r rs ih =>
      cases qs with
      | nil => simp at h
      | cons q qs =>
          simp only [List.map_cons, List.cons.injEq] at h
          intro a
          rw [List.foldl_cons, h.1, pymax_fin, List.foldl_cons]
          exact ih qs h.2 (max a q)

theorem foldl_pyadd_map (rs : List SensorData) (qs : List ℚ)
    (h : rs.map SensorData.value = qs.map PyNum.fin) :
    ∀ a : ℚ, rs.foldl (fun s r => pyadd s r.value) (.fin a) = .fin (a + qs.sum) := by
  induction rs generalizing qs with
  | nil =>
      cases qs with
      | nil => intro a; simp
      | cons q qs => simp at h
  | cons r rs ih =>
      cases qs with
      | nil => simp at h
      | cons q qs =>
          simp only [List.map_cons, List.cons.injEq] at h
          intro a
          rw [List.foldl_cons, h.1, pyadd_fin]
          rw [ih qs h.2 (a + q), List.sum_cons]
          ring_nf

theorem foldl_min_comm (qs : List ℚ) : ∀ a b : ℚ,
    qs.foldl min (min a b) = min a (qs.foldl min b) := by
  induction qs with
  | nil => intro a b; rfl
  | cons q qs ih =>
      intro a b
      rw [List.foldl_cons, List.foldl_cons, min_assoc, ih]

theorem foldl_max_comm (qs : List ℚ) : ∀ a b : ℚ,
    qs.foldl max (max a b) = max a (qs.foldl max b) := by
  induction qs with
  | nil => intro a b; rfl
  | cons q qs ih =>
      intro a b
      rw [List.foldl_cons, List.foldl_cons, max_assoc, ih]

theorem dropWhile_idem (p : Char → Bool) (l : List Char) :
    (l.dropWhile p).dropWhile p = l.dropWhile p := by
  induction l with
  | nil => rfl
  | cons a t ih =>
      by_cases h : p a
      · simp [List.dropWhile_cons, h, ih]
      · simp [List.dropWhile_cons, h]

theorem dropWhile_head_not (p : Char → Bool) (l : List Char) :
    ∀ c, (l.dropWhile p).head? = some c → p c = false := by
  induction l with
  | nil => intro c h; simp at h
  | cons a t ih =>
      intro c h
      by_cases hp : p a
      · rw [List.dropWhile_cons] at h
        simp only [hp, if_true] at h
        exact ih c h
      · rw [List.dropWhile_cons, if_neg (by simpa using hp)] at h
        simp only [List.head?_cons, Option.some.injEq] at h
        rw [← h]
        simpa using hp

theorem dropWhile_eq_self_of_head (p : Char → Bool) (l : List Char)
    (h : ∀ c, l.head? = some c → p c = false) : l.dropWhile p = l := by
  cases l with
  | nil => rfl
  | cons a t =>
      rw [List.dropWhile_cons, h a rfl]
      simp

theorem rstripP_concat (p : Char → Bool) (xs : List Char) (a : Char) :
    rstripP p (xs ++ [a]) = if p a then rstripP p xs else xs ++ [a] := by
  by_cases h : p a
  · simp [rstripP, List.reverse_append, List.dropWhile_cons, h]
  · simp [rstripP, List.reverse_append, List.dropWhile_cons, h]

theorem rstripP_head (p : Char → Bool) (l : List Char) :
    rstripP p l = [] ∨ (rstripP p l).head? = l.head? := by
  induction l using List.reverseRecOn with
  | nil => left; rfl
  | append_singleton xs a ih =>
      rw [rstripP_concat]
      by_cases h : p a
      · rw [if_pos h]
        rcases ih with h0 | hh
        · left; exact h0
        · cases xs with
          | nil =>
              left
              rfl
          | cons b t =>
              right
              rw [hh]
              simp
      · rw [if_neg h]
        right
        rfl

theorem rstripP_idem (p : Char → Bool) (l : List Char) :
    rstripP p (rstripP p l) = rstripP p l := by
  simp [rstripP, List.reverse_reverse, dropWhile_idem]

theorem pyStrip_idem (cs : List Char) : pyStrip (pyStrip cs) = pyStrip cs := by
  have hps : ∀ l : List Char,
      pyStrip l = rstripP isPySpace (l.dropWhile isPySpace) := fun _ => rfl
  rw [hps, hps]
  have hAhead : ∀ c, (cs.dropWhile isPySpace).head? = some c → isPySpace c = false :=
    dropWhile_head_not _ _
  have h1 : (rstripP isPySpace (cs.dropWhile isPySpace)).dropWhile isPySpace =
      rstripP isPySpace (cs.dropWhile isPySpace) := by
    rcases rstripP_head isPySpace (cs.dropWhile isPySpace) with h0 | hh
    · rw [h0]; rfl
    · refine dropWhile_eq_self_of_head _ _ (fun c hc => hAhead c ?hc2)
      rw [← hh]
      exact hc
  rw [h1, rstripP_idem]

theorem parse_ok_of_split (msg : String) (sid ts v u : List Char) (x : PyNum)
    (hsplit : pySplitComma (pyStrip msg.toList) = [sid, ts, v, u])
    (hv : pyFloatOfChars v = some x)
    (hts : fromisoformatOk (pyReplaceZ ts) = true) :
    parse_csv_message msg = (some ⟨String.mk sid, String.mk ts, x, String.mk u⟩, []) := by
  unfold parse_csv_message
  rw [hsplit]
  simp [hv, hts]

theorem parse_err_of_split (msg : String) (sid ts v u : List Char) (x : PyNum)
    (hsplit : pySplitComma (pyStrip msg.toList) = [sid, ts, v, u])
    (hv : pyFloatOfChars v = some x)
    (hts : fromisoformatOk (pyReplaceZ ts) = false) :
    parse_csv_message msg = (none, [parseErrMsg (String.mk ts)]) := by
  unfold parse_csv_message
  rw [hsplit]
  simp [hv, hts]

theorem parse_badlen (msg : String)
    (h : (pySplitComma (pyStrip msg.toList)).length ≠ 4) :
    parse_csv_message msg = (none, []) := by
  unfold parse_csv_message
  split
  · rename_i sid ts v u heq
    rw [heq] at h
    simp at h
  · rfl

theorem parse_badval (msg : String) (sid ts v u : List Char)
    (hsplit : pySplitComma (pyStrip msg.toList) = [sid, ts, v, u])
    (hv : pyFloatOfChars v = none) :
    parse_csv_message msg = (none, []) := by
  unfold parse_csv_message
  rw [hsplit]
  simp [hv]

/-- C1 (amended): for every input line whose trimmed comma-split has exactly
the four fields `id,ts,v,unit`, where `v` parses as a number under CPython
`float` — finite or not — and the timestamp is accepted, `parse_csv_message`
returns a Record whose `value` equals `float(v)`; non-finite numeric values
are accepted, not rejected. -/
theorem parse_wellformed_numeric_record (msg : String) (sid ts v u : List Char)
    (x : PyNum)
    (hsplit : pySplitComma (pyStrip msg.toList) = [sid, ts, v, u])
    (hv : pyFloatOfChars v = some x)
    (hts : fromisoformatOk (pyReplaceZ ts) = true) :
    (parse_csv_message msg).1 = some ⟨String.mk sid, String.mk ts, x, String.mk u⟩ := by
  rw [parse_ok_of_split msg sid ts v u x hsplit hv hts]

/-- C1 witness: the protocol's documented example line parses to the expected
Record with value 2450. -/
theorem parse_wellformed_numeric_record_witness :
    (parse_csv_message "SW420_GRUPO_10,2025-11-04T15:30:45.123,2450,ADC").1 =
      some ⟨"SW420_GRUPO_10", "2025-11-04T15:30:45.123", PyNum.fin 2450, "ADC"⟩ :=
  parse_wellformed_numeric_record "SW420_GRUPO_10,2025-11-04T15:30:45.123,2450,ADC"
    "SW420_GRUPO_10".toList "2025-11-04T15:30:45.123".toList "2450".toList "ADC".toList
    (PyNum.fin 2450) (by decide) (by decide) (by decide)

/-- C1 counterexample: the line `S,2025-01-01T00:00:00,inf,ADC` has a numeric
but non-finite VALUE, and `parse_csv_message` returns a Record with value
`inf` instead of the failure the claim requires. -/
theorem parse_nonfinite_value_accepted :
    (parse_csv_message "S,2025-01-01T00:00:00,inf,ADC").1 =
      some ⟨"S", "2025-01-01T00:00:00", PyNum.inf, "ADC"⟩ ∧
    pyFloatOfChars "inf".toList = some PyNum.inf := by
  exact ⟨by decide, by decide⟩

/-- C4 (amended): the receive loop invokes the error callback only for parse
failures raised during Record construction (an invalid timestamp with four
fields and a numeric value) — with a descriptive message, leaving the state
unchanged and continuing; failures from a wrong field count or a non-numeric
value emit no message at all (the silent `return None` paths). -/
theorem receive_step_error_callback (st : ServerState) (addr : String × ℕ)
    (msg : String) (sid ts v u : List Char) (x : PyNum)
    (hsplit : pySplitComma (pyStrip msg.toList) = [sid, ts, v, u])
    (hv : pyFloatOfChars v = some x)
    (hts : fromisoformatOk (pyReplaceZ ts) = false) :
    receive_step st addr msg = (st, [parseErrMsg (String.mk ts)], []) ∧
    ∀ msg2 : String, (parse_csv_message msg2).1 = none →
      (parse_csv_message msg2).2 = [] → receive_step st addr msg2 = (st, [], []) := by
  constructor
  · have hp := parse_err_of_split msg sid ts v u x hsplit hv hts
    simp [receive_step, hp]
  · intro msg2 h1 h2
    simp [receive_step, h1, h2]

/-- C4 witness: a four-field datagram with a bad timestamp produces exactly
one error-callback message and no state change, while a two-field datagram is
dropped with no callback at all. -/
theorem receive_step_error_callback_witness :
    receive_step (initServer 300) ("192.168.42.1", 5000) "X,baddate,7,mV" =
      (initServer 300, [parseErrMsg "baddate"], []) ∧
    receive_step (initServer 300) ("192.168.42.1", 5000) "bad,datagram" =
      (initServer 300, [], []) := by
  have h := receive_step_error_callback (initServer 300) ("192.168.42.1", 5000)
    "X,baddate,7,mV" "X".toList "baddate".toList "7".toList "mV".toList (PyNum.fin 7)
    (by decide) (by decide) (by decide)
  exact ⟨h.1, h.2 "bad,datagram" (by decide) (by decide)⟩

/-- C4 counterexample: the malformed datagram `only,two` fails to parse, yet
the receive-loop step invokes no error callback (the claim requires a
callback for every parse failure). -/
theorem receive_step_malformed_silent :
    (parse_csv_message "only,two").1 = none ∧
    receive_step (initServer 300) ("192.168.42.10", 5000) "only,two" =
      (initServer 300, [], []) := by
  exact ⟨by decide, by decide⟩

/-- C5: a datagram whose text fails to parse leaves the whole server state —
aggregator counters, history ring, source binding and current record —
exactly unchanged. -/
theorem parse_failure_no_mutation (st : ServerState) (addr : String × ℕ)
    (msg : String) (h : (parse_csv_message msg).1 = none) :
    (receive_step st addr msg).1 = st := by
  simp [receive_step, h]

/-- C5 witness: processing the malformed datagram `foo,bar` from a fresh
server leaves the state equal to the fresh state. -/
theorem parse_failure_no_mutation_witness :
    (receive_step (initServer 300) ("10.0.0.2", 9999) "foo,bar").1 = initServer 300 :=
  parse_failure_no_mutation (initServer 300) ("10.0.0.2", 9999) "foo,bar" (by decide)

/-- C7: parsing trims leading and trailing whitespace before splitting
(parsing a message equals parsing its stripped form), and every line whose
trimmed comma-split does not have exactly 4 fields — including the empty
line — or whose VALUE field is not numeric, fails with no Record. -/
theorem parse_rejects_malformed (msg : String) :
    parse_csv_message msg = parse_csv_message (String.mk (pyStrip msg.toList)) ∧
    ((pySplitComma (pyStrip msg.toList)).length ≠ 4 →
      (parse_csv_message msg).1 = none) ∧
    (∀ sid ts v u, pySplitComma (pyStrip msg.toList) = [sid, ts, v, u] →
      pyFloatOfChars v = none → (parse_csv_message msg).1 = none) := by
  refine ⟨?ht, ?hl, ?hv⟩
  · unfold parse_csv_message
    have heq : (String.mk (pyStrip msg.toList)).toList = pyStrip msg.toList := rfl
    rw [heq, pyStrip_idem]
  · intro h
    rw [parse_badlen msg h]
  · intro sid ts v u hs hv
    rw [parse_badval msg sid ts v u hs hv]

/-- C7 witness: the empty line fails to parse, and a line with surrounding
whitespace parses the same as its trimmed form. -/
theorem parse_rejects_malformed_witness :
    (parse_csv_message "").1 = none ∧
    parse_csv_message " a,b " = parse_csv_message "a,b" := by
  refine ⟨(parse_rejects_malformed "").2.1 (by decide), ?hw⟩
  exact (parse_rejects_malformed " a,b ").1

/-- C9 (amended): the result of `parse_csv_message` depends only on the input
string, but the function is not callback-free: it invokes the error callback
exactly when the line has four fields and a numeric VALUE yet the timestamp
is rejected (the exception raised inside Record construction); and every
failure returns `None`, carrying no raw line — whenever a callback message is
emitted the parse result is a failure. -/
theorem parse_callback_characterization (msg : String) :
    ((parse_csv_message msg).2 ≠ [] ↔
      ∃ sid ts v u x, pySplitComma (pyStrip msg.toList) = [sid, ts, v, u] ∧
        pyFloatOfChars v = some x ∧ fromisoformatOk (pyReplaceZ ts) = false) ∧
    ((parse_csv_message msg).1 = none ∨ (parse_csv_message msg).2 = []) := by
  rcases hl : pySplitComma (pyStrip msg.toList) with _ | ⟨sid, _ | ⟨ts, _ | ⟨v, _ | ⟨u, _ | ⟨w, tail⟩⟩⟩⟩⟩
  case nil =>
    have hp := parse_badlen msg (by rw [hl]; simp)
    rw [hp]
    refine ⟨⟨fun hc => absurd rfl hc, ?_⟩, Or.inl rfl⟩
    rintro ⟨s, t, vv, uu, x, h1, h2, h3⟩
    simp at h1
  case cons.nil =>
    have hp := parse_badlen msg (by rw [hl]; simp)
    rw [hp]
    refine ⟨⟨fun hc => absurd rfl hc, ?_⟩, Or.inl rfl⟩
    rintro ⟨s, t, vv, uu, x, h1, h2, h3⟩
    simp at h1
  case cons.cons.nil =>
    have hp := parse_badlen msg (by rw [hl]; simp)
    rw [hp]
    refine ⟨⟨fun hc => absurd rfl hc, ?_⟩, Or.inl rfl⟩
    rintro ⟨s, t, vv, uu, x, h1, h2, h3⟩
    simp at h1
  case cons.cons.cons.nil =>
    have hp := parse_badlen msg (by rw [hl]; simp)
    rw [hp]
    refine ⟨⟨fun hc => absurd rfl hc, ?_⟩, Or.inl rfl⟩
    rintro ⟨s, t, vv, uu, x, h1, h2, h3⟩
    simp at h1
  case cons.cons.cons.cons.cons =>
    have hp := parse_badlen msg (by rw [hl]; simp)
    rw [hp]
    refine ⟨⟨fun hc => absurd rfl hc, ?_⟩, Or.inl rfl⟩
    rintro ⟨s, t, vv, uu, x, h1, h2, h3⟩
    simp at h1
  case cons.cons.cons.cons.nil =>
    rcases hv : pyFloatOfChars v with _ | x
    · have hp := parse_badval msg sid ts v u hl hv
      rw [hp]
      refine ⟨⟨fun hc => absurd rfl hc, ?_⟩, Or.inl rfl⟩
      rintro ⟨s, t, vv, uu, x, h1, h2, h3⟩
      simp only [List.cons.injEq, and_true] at h1
      obtain ⟨hs1, hs2, hs3, hs4⟩ := h1
      rw [← hs3, hv] at h2
      exact Option.noConfusion h2
    · by_cases hts : fromisoformatOk (pyReplaceZ ts) = true
      · have hp := parse_ok_of_split msg sid ts v u x hl hv hts
        rw [hp]
        refine ⟨⟨fun hc => absurd rfl hc, ?_⟩, Or.inr rfl⟩
        rintro ⟨s, t, vv, uu, x2, h1, h2, h3⟩
        simp only [List.cons.injEq, and_true] at h1
        obtain ⟨hs1, hs2, hs3, hs4⟩ := h1
        rw [← hs2, hts] at h3
        exact Bool.noConfusion h3
      · have hts2 : fromisoformatOk (pyReplaceZ ts) = false := by simpa using hts
        have hp := parse_err_of_split msg sid ts v u x hl hv hts2
        rw [hp]
        refine ⟨⟨fun _ => ⟨sid, ts, v, u, x, rfl, hv, hts2⟩, fun _ => by simp⟩, Or.inl rfl⟩

/-- C9 witness: a four-field numeric line with an out-of-range date makes
`parse_csv_message` emit an error-callback message. -/
theorem parse_callback_characterization_witness :
    (parse_csv_message "G,2025-99-99T00:00:00,1,g").2 ≠ [] :=
  (parse_callback_characterization "G,2025-99-99T00:00:00,1,g").1.mpr
    ⟨"G".toList, "2025-99-99T00:00:00".toList, "1".toList, "g".toList, PyNum.fin 1,
      by decide, by decide, by decide⟩

/-- C9 counterexample: on `S,notadate,5,ADC` the parse function itself
invokes the error callback (the claim says it never invokes any callback),
and the failure result is the bare `None`, carrying no raw line. -/
theorem parse_invokes_error_callback :
    parse_csv_message "S,notadate,5,ADC" =
      (none, ["Erro ao fazer parse: Invalid isoformat string: notadate"]) := by
  decide

/-- C3: for every capacity and every sequence of more than `capacity` pushed
records, the history ring afterwards has length exactly `capacity` and
contains exactly the last `capacity` pushed records, oldest first. -/
theorem history_ring_keeps_last (cap : ℕ) (rs : List SensorData)
    (h : cap < rs.length) :
    (apply_updates (initServer cap) rs).history = rs.drop (rs.length - cap) ∧
    (apply_updates (initServer cap) rs).history.length = cap := by
  have hh : (apply_updates (initServer cap) rs).history =
      rs.foldl (pushRing cap) [] := by
    rw [apply_updates_history]
    rfl
  have h2 := foldl_pushRing cap rs [] (by simp)
  simp only [List.nil_append, List.length_nil] at h2
  constructor
  · rw [hh, h2]
  · rw [hh, h2, List.length_drop]
    omega

/-- C3 witness: with capacity 3, pushing records with values 1, 2, 3, 4
leaves the ring holding the records with values 2, 3, 4 and length 3. -/
theorem history_ring_keeps_last_witness :
    (apply_updates (initServer 3)
      [⟨"S","T",.fin 1,"U"⟩, ⟨"S","T",.fin 2,"U"⟩, ⟨"S","T",.fin 3,"U"⟩,
        ⟨"S","T",.fin 4,"U"⟩]).history =
      [⟨"S","T",.fin 2,"U"⟩, ⟨"S","T",.fin 3,"U"⟩, ⟨"S","T",.fin 4,"U"⟩] ∧
    (apply_updates (initServer 3)
      [⟨"S","T",.fin 1,"U"⟩, ⟨"S","T",.fin 2,"U"⟩, ⟨"S","T",.fin 3,"U"⟩,
        ⟨"S","T",.fin 4,"U"⟩]).history.length = 3 := by
  have h := history_ring_keeps_last 3
    [⟨"S","T",.fin 1,"U"⟩, ⟨"S","T",.fin 2,"U"⟩, ⟨"S","T",.fin 3,"U"⟩,
      ⟨"S","T",.fin 4,"U"⟩] (by decide)
  exact ⟨h.1, h.2⟩

/-- C10: in every state reachable from a fresh server by accepted-record
updates, the history length equals `min total_readings max_history`,
`total_readings` counts exactly the accepted records and never decreases
under an update, and the history is never longer than `total_readings`. -/
theorem history_length_min_total (cap : ℕ) (rs : List SensorData) :
    (apply_updates (initServer cap) rs).history.length =
      min (apply_updates (initServer cap) rs).total_readings cap ∧
    (apply_updates (initServer cap) rs).total_readings = rs.length ∧
    (apply_updates (initServer cap) rs).history.length ≤
      (apply_updates (initServer cap) rs).total_readings ∧
    ∀ (st : ServerState) (d : SensorData),
      st.total_readings ≤ (update_stats st d).total_readings := by
  have htot : (apply_updates (initServer cap) rs).total_readings = rs.length := by
    rw [apply_updates_total]
    simp [initServer]
  have hh : (apply_updates (initServer cap) rs).history =
      rs.foldl (pushRing cap) [] := by
    rw [apply_updates_history]
    rfl
  have h2 := foldl_pushRing cap rs [] (by simp)
  simp only [List.nil_append, List.length_nil] at h2
  have hlen : (apply_updates (initServer cap) rs).history.length =
      min rs.length cap := by
    rw [hh, h2, List.length_drop]
    omega
  refine ⟨by rw [hlen, htot], htot, ?_, ?_⟩
  · rw [hlen, htot]
    omega
  · intro st d
    simp [update_stats]

/-- C6: `high_vibration_events` equals the number of updates whose value was
strictly greater than the alert threshold (the module constant 5000, read at
every update); Scenario B: threshold 5000 with updates 100, 6000, 200 yields
one crossing, min 100, max 6000 and snapshot average 2100.00. -/
theorem threshold_crossings_semantics (cap : ℕ) (rs : List SensorData) :
    ((apply_updates (initServer cap) rs).high_vibration_events =
      rs.countP (fun r => pylt (.fin DEFAULT_VIBRATION_THRESHOLD) r.value)) ∧
    DEFAULT_VIBRATION_THRESHOLD = 5000 ∧
    (let stB := apply_updates (initServer 300)
      [⟨"S","T1",.fin 100,"U"⟩, ⟨"S","T2",.fin 6000,"U"⟩, ⟨"S","T3",.fin 200,"U"⟩]
     stB.high_vibration_events = 1 ∧ stB.min_value = .fin 100 ∧
       stB.max_value = .fin 6000 ∧
       Option.map Stats.avg_value (get_stats stB) = some (.fin 2100)) := by
  refine ⟨?_, rfl, by decide, by decide, by decide, by decide⟩
  rw [apply_updates_crossings]
  simp [initServer]

/-- C8: exporting writes the header `sensor_id,timestamp,value,unit` followed
by exactly one row per history record in ring order (a 3-record history
yields exactly 4 lines whose fields match the records); an I/O failure is
reported through the error callback and returns false, and no exception
escapes the function. -/
theorem export_csv_format (st : ServerState) :
    export_csv_lines st = "sensor_id,timestamp,value,unit" :: st.history.map csvLine ∧
    (export_csv_lines st).length = st.history.length + 1 ∧
    export_to_csv st true = (true, []) ∧
    export_to_csv st false = (false, ["Erro ao exportar CSV: I/O error"]) ∧
    (let st3 := apply_updates (initServer 300)
      [⟨"S1","2025-01-01T00:00:00",.fin 1,"ADC"⟩,
        ⟨"S1","2025-01-01T00:00:01",.fin 2,"ADC"⟩,
        ⟨"S1","2025-01-01T00:00:02",.fin 3,"ADC"⟩]
     export_csv_lines st3 =
      ["sensor_id,timestamp,value,unit",
       "S1,2025-01-01T00:00:00,1.0,ADC",
       "S1,2025-01-01T00:00:01,2.0,ADC",
       "S1,2025-01-01T00:00:02,3.0,ADC"]) := by
  refine ⟨rfl, by simp [export_csv_lines], rfl, rfl, by decide⟩

/-- C2 (amended): after any non-empty sequence of accepted updates with
finite values `q0 :: qs` from the fresh aggregator state, `min` equals the
minimum of the values, `max` equals the maximum of 0 and the values (the
accumulator is initialised to 0, so an all-negative sequence tops out at 0),
`count` equals the number of updates, and the snapshot average equals the sum
divided by the count, rounded to 2 decimals. -/
theorem aggregator_stats_after_updates (cap : ℕ) (rs : List SensorData)
    (q0 : ℚ) (qs : List ℚ)
    (hv : rs.map SensorData.value = (q0 :: qs).map PyNum.fin) :
    (apply_updates (initServer cap) rs).min_value = .fin (qs.foldl min q0) ∧
    (apply_updates (initServer cap) rs).max_value = .fin (max 0 (qs.foldl max q0)) ∧
    (apply_updates (initServer cap) rs).total_readings = qs.length + 1 ∧
    Option.map Stats.avg_value (get_stats (apply_updates (initServer cap) rs)) =
      some (.fin (round2q ((q0 :: qs).sum / (qs.length + 1 : ℚ)))) := by
  cases rs with
  | nil => simp at hv
  | cons r rs2 =>
      simp only [List.map_cons, List.cons.injEq] at hv
      obtain ⟨hr, hrs⟩ := hv
      have hlen : rs2.length = qs.length := by
        have hc := congrArg List.length hrs
        simpa using hc
      have hmin : (apply_updates (initServer cap) (r :: rs2)).min_value =
          .fin (qs.foldl min q0) := by
        rw [apply_updates_min, List.foldl_cons]
        have h0 : pymin (initServer cap).min_value r.value = .fin q0 := by
          rw [hr]
          rfl
        rw [h0]
        exact foldl_pymin_map rs2 qs hrs q0
      have hmax : (apply_updates (initServer cap) (r :: rs2)).max_value =
          .fin (max 0 (qs.foldl max q0)) := by
        rw [apply_updates_max, List.foldl_cons]
        have h0 : pymax (initServer cap).max_value r.value = .fin (max 0 q0) := by
          rw [hr]
          exact pymax_fin 0 q0
        rw [h0, foldl_pymax_map rs2 qs hrs (max 0 q0), foldl_max_comm qs 0 q0]
      have htot : (apply_updates (initServer cap) (r :: rs2)).total_readings =
          qs.length + 1 := by
        rw [apply_updates_total]
        simp [initServer, hlen]
      have hsum : (apply_updates (initServer cap) (r :: rs2)).sum_values =
          .fin ((q0 :: qs).sum) := by
        rw [apply_updates_sum, List.foldl_cons]
        have h0 : pyadd (initServer cap).sum_values r.value = .fin (0 + q0) := by
          rw [hr]
          rfl
        rw [h0, foldl_pyadd_map rs2 qs hrs (0 + q0), List.sum_cons]
        congr 1
        ring
      refine ⟨hmin, hmax, htot, ?_⟩
      rw [get_stats, htot, hsum]
      simp only [Nat.succ_ne_zero, if_false, Option.map_some]
      have hden : ((qs.length + 1 : ℕ) : ℚ) ≠ 0 := by
        push_cast
        positivity
      simp only [pydiv, hden, if_neg hden, pyRound2]
      push_cast
      ring_nf
      rfl

/-- C2 witness: updates with values 1 and 3 give min 1, max 3, count 2 and
snapshot average 2. -/
theorem aggregator_stats_after_updates_witness :
    (apply_updates (initServer 5)
      [⟨"S","T",.fin 1,"U"⟩, ⟨"S","T",.fin 3,"U"⟩]).min_value = .fin 1 ∧
    (apply_updates (initServer 5)
      [⟨"S","T",.fin 1,"U"⟩, ⟨"S","T",.fin 3,"U"⟩]).max_value = .fin 3 ∧
    (apply_updates (initServer 5)
      [⟨"S","T",.fin 1,"U"⟩, ⟨"S","T",.fin 3,"U"⟩]).total_readings = 2 ∧
    Option.map Stats.avg_value (get_stats (apply_updates (initServer 5)
      [⟨"S","T",.fin 1,"U"⟩, ⟨"S","T",.fin 3,"U"⟩])) = some (.fin 2) := by
  have h := aggregator_stats_after_updates 5
    [⟨"S","T",.fin 1,"U"⟩, ⟨"S","T",.fin 3,"U"⟩] 1 [3] (by decide)
  refine ⟨?_, ?_, h.2.2.1, ?_⟩
  · rw [h.1]
    decide
  · rw [h.2.1]
    decide
  · rw [h.2.2.2]
    decide

/-- C2 counterexample: a single update with value -5 leaves `max_value` at 0
(its initial value), not at the sequence maximum -5 required by the claim. -/
theorem aggregator_max_not_maximum :
    (apply_updates (initServer 300) [⟨"S","T",.fin (-5),"U"⟩]).max_value = .fin 0 ∧
    PyNum.fin 0 ≠ PyNum.fin (-5) := ⟨by decide, by decide⟩
